import Mathlib

/-!
Shallow embedding of the ISO 7816-4 command APDU codec
(`src/command.rs`, `src/command/class.rs`, `src/command/instruction.rs`).

Bytes are modelled as `Nat` (with explicit `% 256` where the source relies
on machine-integer width), byte slices as `List Nat`, fallible operations as
`Option`/`Except`, and the source's `panic!`/`unreachable!` sites as explicit
failure constructors.
-/

/-- Decidable equality for `Except`, so that concrete parses can be settled
by `decide`. -/
instance {ε α : Type} [DecidableEq ε] [DecidableEq α] : DecidableEq (Except ε α) :=
  fun a b =>
    match a, b with
    | .ok x, .ok y =>
      if h : x = y then .isTrue (by rw [h])
      else .isFalse (fun hh => h (Except.ok.inj hh))
    | .ok _, .error _ => .isFalse (fun hh => Except.noConfusion hh)
    | .error _, .ok _ => .isFalse (fun hh => Except.noConfusion hh)
    | .error x, .error y =>
      if h : x = y then .isTrue (by rw [h])
      else .isFalse (fun hh => h (Except.error.inj hh))

namespace Iso7816

/-! ### Class (`src/command/class.rs`) -/

inductive Interindustry
  | First
  | Further
  | Reserved
deriving DecidableEq, Repr

inductive ClassRange
  | Interindustry (i : Interindustry)
  | Proprietary
deriving DecidableEq, Repr

/-- `Range::from_cla`: rejects `0xFF`, otherwise classifies by the top three
bits (`cla >> 5`). -/
def ClassRange.from_cla (cla : Nat) : Option ClassRange :=
  if cla = 0xff then none
  else some (
    match cla >>> 5 with
    | 0b000 => ClassRange.Interindustry .First
    | 0b010 => ClassRange.Interindustry .Further
    | 0b011 => ClassRange.Interindustry .Further
    | 0b001 => ClassRange.Interindustry .Reserved
    | _ => ClassRange.Proprietary)

/-- `Class`: the raw class byte together with its (cached) range. -/
structure Class where
  cla : Nat
  range : ClassRange
deriving DecidableEq, Repr

/-- `Class::from_byte`. -/
def Class.from_byte (cla : Nat) : Option Class :=
  (ClassRange.from_cla cla).map fun r => ⟨cla, r⟩

/-- `Class::as_chained`: sets bit 4 of the class byte, keeping the cached
range unchanged. -/
def Class.as_chained (c : Class) : Class :=
  ⟨c.cla ||| (1 <<< 4), c.range⟩

/-- `Class::channel`: `cla & 0b11` for first interindustry,
`(4 + cla) & 0b111` (with wrapping `u8` addition) for further interindustry,
`None` otherwise. -/
def Class.channel (c : Class) : Option Nat :=
  match c.range with
  | .Interindustry .First => some (c.cla &&& 0b11)
  | .Interindustry .Further => some (((4 + c.cla) % 256) &&& 0b111)
  | _ => none

/-! ### Instruction (`src/command/instruction.rs`) -/

inductive Instruction
  | Select
  | GetData
  | Verify
  | ChangeReferenceData
  | ResetRetryCounter
  | GeneralAuthenticate
  | PutData
  | GenerateAsymmetricKeyPair
  | GetResponse
  | ReadBinary
  | WriteBinary
  | Unknown (ins : Nat)
deriving DecidableEq, Repr

/-- `impl From<u8> for Instruction`. -/
def Instruction.from_byte (ins : Nat) : Instruction :=
  if ins = 0x20 then .Verify
  else if ins = 0x24 then .ChangeReferenceData
  else if ins = 0x2c then .ResetRetryCounter
  else if ins = 0x47 then .GenerateAsymmetricKeyPair
  else if ins = 0x87 then .GeneralAuthenticate
  else if ins = 0xa4 then .Select
  else if ins = 0xc0 then .GetResponse
  else if ins = 0xcb then .GetData
  else if ins = 0xdb then .PutData
  else if ins = 0xb0 then .ReadBinary
  else if ins = 0xd0 then .WriteBinary
  else .Unknown ins

/-- `impl From<Instruction> for u8`. -/
def Instruction.to_byte : Instruction → Nat
  | .Verify => 0x20
  | .ChangeReferenceData => 0x24
  | .ResetRetryCounter => 0x2c
  | .GenerateAsymmetricKeyPair => 0x47
  | .GeneralAuthenticate => 0x87
  | .Select => 0xa4
  | .GetResponse => 0xc0
  | .GetData => 0xcb
  | .PutData => 0xdb
  | .ReadBinary => 0xb0
  | .WriteBinary => 0xd0
  | .Unknown ins => ins

/-! ### Length grammar: decoding (`parse_lengths` in `src/command.rs`) -/

inductive FromSliceError
  | TooShort
  | TooLong
  | InvalidClass
  | InvalidFirstBodyByteForExtended
  | InvalidSliceLength
deriving DecidableEq, Repr

structure ParsedLengths where
  lc : Nat
  le : Nat
  offset : Nat
  extended : Bool
deriving DecidableEq, Repr

/-- `replace_zero`. -/
def replace_zero (value replacement : Nat) : Nat :=
  if value = 0 then replacement else value

/-- `parse_lengths`: decode the Lc/Le region of the APDU body
(ISO 7816-3 §12.1.3, cases 1, 2S, 3S, 4S, 2E, 3E, 4E).
`u16::from_be_bytes [hi, lo]` is `hi * 256 + lo`. -/
def parse_lengths (body : List Nat) : Except FromSliceError ParsedLengths :=
  if body.length = 0 then
    .ok ⟨0, 0, 0, false⟩
  else if body.length = 1 then
    .ok ⟨0, replace_zero (body.getD 0 0) 256, 0, false⟩
  else if body.length = 1 + body.getD 0 0 ∧ body.getD 0 0 ≠ 0 then
    .ok ⟨body.getD 0 0, 0, 1, false⟩
  else if body.length = 2 + body.getD 0 0 ∧ body.getD 0 0 ≠ 0 then
    .ok ⟨body.getD 0 0, replace_zero (body.getD (body.length - 1) 0) 256, 1, false⟩
  else if body.getD 0 0 ≠ 0 then
    .error .InvalidFirstBodyByteForExtended
  else if body.length < 3 then
    .error .InvalidSliceLength
  else if body.length = 3 then
    .ok ⟨0, replace_zero (body.getD 1 0 * 256 + body.getD 2 0) 65536, 0, true⟩
  else if body.length = 3 + (body.getD 1 0 * 256 + body.getD 2 0) then
    .ok ⟨body.getD 1 0 * 256 + body.getD 2 0, 0, 3, true⟩
  else if body.length = 5 + (body.getD 1 0 * 256 + body.getD 2 0) then
    .ok ⟨body.getD 1 0 * 256 + body.getD 2 0,
         replace_zero (body.getD (body.length - 2) 0 * 256 + body.getD (body.length - 1) 0)
           65536,
         3, true⟩
  else
    .error .InvalidSliceLength

/-! ### CommandView and parsing (`TryFrom<&[u8]> for CommandView`) -/

structure CommandView where
  cls : Class
  instruction : Instruction
  p1 : Nat
  p2 : Nat
  data : List Nat
  le : Nat
  extended : Bool
deriving DecidableEq, Repr

/-- `TryFrom<&'a [u8]> for CommandView<'a>`: split off the 4-byte header,
parse the class, instruction, and lengths, and take the data slice
`body[offset..][..lc]` (modelled totally by `drop`/`take`; the in-bounds
property is proved separately). -/
def CommandView.try_from (apdu : List Nat) : Except FromSliceError CommandView :=
  if apdu.length < 4 then .error .TooShort
  else
    match Class.from_byte ((apdu.take 4).getD 0 0) with
    | none => .error .InvalidClass
    | some cls =>
      match parse_lengths (apdu.drop 4) with
      | .error e => .error e
      | .ok parsed =>
        .ok ⟨cls, Instruction.from_byte ((apdu.take 4).getD 1 0), (apdu.take 4).getD 2 0,
             (apdu.take 4).getD 3 0, ((apdu.drop 4).drop parsed.offset).take parsed.lc,
             parsed.le, parsed.extended⟩

/-! ### CommandBuilder and the length grammar: encoding (`src/command.rs`) -/

/-- `ExpectedLen`: a concrete `u16` request or the `Max` sentinel.
The source's `Ne` payload is a `u16`; theorems carry `n ≤ 65535` where it
matters. -/
inductive ExpectedLen
  | Ne (n : Nat)
  | Max
deriving DecidableEq, Repr

/-- The derived `Ord` on `ExpectedLen` (declaration order: `Ne(n)` by value,
then `Max`). -/
def ExpectedLen.leb : ExpectedLen → ExpectedLen → Bool
  | .Ne a, .Ne b => decide (a ≤ b)
  | .Ne _, .Max => true
  | .Max, .Ne _ => false
  | .Max, .Max => true

/-- `Ord::min` for `ExpectedLen`. -/
def ExpectedLen.minE (a b : ExpectedLen) : ExpectedLen :=
  if a.leb b then a else b

/-- `impl From<ExpectedLen> for usize` (`Max` maps to `u16::MAX`, i.e. 65535). -/
def ExpectedLen.to_usize : ExpectedLen → Nat
  | .Ne l => l
  | .Max => 65535

inductive ExtendedLen
  | Unsupported
  | Supported
  | Forced
deriving DecidableEq, Repr

/-- `CommandBuilder` with the data source specialised to a byte slice. -/
structure CommandBuilder where
  cls : Class
  instruction : Instruction
  p1 : Nat
  p2 : Nat
  data : List Nat
  le : ExpectedLen
  extendedLength : ExtendedLen
deriving DecidableEq, Repr

/-- `serialize_data_len` (inner function of `CommandBuilder::header_data`):
returns the emitted Lc field and whether it is extended.
`u16::to_be_bytes len` is `[len / 256 % 256, len % 256]`. -/
def serialize_data_len (len : Nat) (expected_len : ExpectedLen) (extended : ExtendedLen) :
    List Nat × Bool :=
  let expectedIsExtended : Bool :=
    match expected_len with
    | .Ne n => decide (257 ≤ n)
    | .Max => true
  if len = 0 then ([], false)
  else if len ≤ 255 ∧ expectedIsExtended = false ∧ extended ≠ ExtendedLen.Forced then
    ([len], false)
  else ([0, len / 256 % 256, len % 256], true)

/-- `serialize_expected_len` (inner function of `CommandBuilder::header_data`):
returns the emitted Le field; the source's two `unreachable!` arms are
modelled as `none`. -/
def serialize_expected_len (len : ExpectedLen) (lc_extended data_is_empty : Bool)
    (extended : ExtendedLen) : Option (List Nat) :=
  match len with
  | .Ne n =>
    if n = 0 then some []
    else if 1 ≤ n ∧ n ≤ 255 ∧ lc_extended = false ∧ extended ≠ ExtendedLen.Forced then
      some [n]
    else if n = 256 ∧ lc_extended = false ∧ extended ≠ ExtendedLen.Forced then
      some [0]
    else if lc_extended = true ∧ data_is_empty = false then
      some [n / 256 % 256, n % 256]
    else if lc_extended = false ∧ data_is_empty = true then
      some [0, n / 256 % 256, n % 256]
    else none
  | .Max =>
    if lc_extended = true ∧ data_is_empty = false then
      some [0, 0]
    else if lc_extended = false ∧ data_is_empty = true then
      some [0, 0, 0]
    else none

structure BuildingHeaderData where
  le : ExpectedLen
  data_len : List Nat
  expected_data_len : List Nat
deriving DecidableEq, Repr

/-- The `le` binding at the top of `CommandBuilder::header_data`: the
requested `le`, clamped to 256 when extended length is unsupported. -/
def CommandBuilder.effective_le (b : CommandBuilder) : ExpectedLen :=
  if b.extendedLength = ExtendedLen.Unsupported then b.le.minE (.Ne 256) else b.le

/-- `CommandBuilder::header_data`: clamp `le`, then compute both length
fields. -/
def CommandBuilder.header_data (b : CommandBuilder) : Option BuildingHeaderData :=
  (serialize_expected_len b.effective_le
      (serialize_data_len b.data.length b.effective_le b.extendedLength).2
      b.data.isEmpty b.extendedLength).map fun e =>
    ⟨b.effective_le, (serialize_data_len b.data.length b.effective_le b.extendedLength).1, e⟩

/-- `CommandBuilder::serialize_into` targeting an unbounded in-memory sink:
the 4 header bytes, the Lc field, the payload, the Le field. -/
def CommandBuilder.serialize (b : CommandBuilder) : Option (List Nat) :=
  b.header_data.map fun h =>
    [b.cls.cla, b.instruction.to_byte, b.p1, b.p2] ++ h.data_len ++ b.data
      ++ h.expected_data_len

/-- Serialize then parse: the encode/decode round trip on one physical
APDU. -/
def CommandBuilder.roundTrip (b : CommandBuilder) : Option CommandView :=
  b.serialize.bind fun s => (CommandView.try_from s).toOption

/-- The cross-type `PartialEq<CommandView> for CommandBuilder<D>`: compares
every field except the serialization-only `ExtendedLen` policy, with the
builder's `le` converted to `usize`. -/
def builder_eq_view (b : CommandBuilder) (v : CommandView) : Prop :=
  b.cls = v.cls ∧ b.instruction = v.instruction ∧ b.p1 = v.p1 ∧ b.p2 = v.p2
    ∧ b.data = v.data ∧ b.le.to_usize = v.le

instance (b : CommandBuilder) (v : CommandView) : Decidable (builder_eq_view b v) := by
  unfold builder_eq_view; infer_instance

/-! ### Splitting (`CommandBuilder::should_split`) and chaining -/

/-- Result of `should_split`: the source panics (two `panic!` sites plus the
`unreachable!`s inside `header_data`), returns `None`, or returns the
`(send_now, send_later)` pair. -/
inductive SplitResult
  | fatal
  | noSplit
  | split (send_now send_later : CommandBuilder)
deriving DecidableEq, Repr

/-- The `available_data_len` computation of `CommandBuilder::should_split`:
what remains of `available_len` after the header and the two length fields,
clamped to the maximum payload for the current extended-length policy. -/
def CommandBuilder.available_data_len (b : CommandBuilder) (available_len : Nat)
    (h : BuildingHeaderData) : Nat :=
  min ((available_len - 4) - (h.data_len.length + h.expected_data_len.length))
    (if b.extendedLength = ExtendedLen.Unsupported then 255 else 65535)

/-- `CommandBuilder::should_split`. -/
def CommandBuilder.should_split (b : CommandBuilder) (available_len : Nat) : SplitResult :=
  if available_len < 4 then .fatal
  else
    match b.header_data with
    | none => .fatal
    | some h =>
      if b.data.length ≤ b.available_data_len available_len h then .noSplit
      else if b.available_data_len available_len h = 0 then .fatal
      else
        .split
          ⟨b.cls.as_chained, b.instruction, b.p1, b.p2,
            b.data.take (b.available_data_len available_len h), .Ne 0, b.extendedLength⟩
          ⟨b.cls, b.instruction, b.p1, b.p2,
            b.data.drop (b.available_data_len available_len h), h.le, b.extendedLength⟩

/-- Repeatedly applying `should_split` to the `send_later` remainder until it
returns `None` (what `ChainedCommandIterator` automates), with explicit fuel;
`none` when the source would panic (or on fuel exhaustion, which
`chainFragments` rules out). -/
def chainFragmentsAux : Nat → CommandBuilder → Nat → Option (List CommandBuilder)
  | 0, _, _ => none
  | fuel + 1, b, available_len =>
    match b.should_split available_len with
    | .fatal => none
    | .noSplit => some [b]
    | .split now later => (chainFragmentsAux fuel later available_len).map (now :: ·)

/-- The full ordered fragment sequence for one logical command. -/
def chainFragments (b : CommandBuilder) (available_len : Nat) :
    Option (List CommandBuilder) :=
  chainFragmentsAux (b.data.length + 1) b available_len

/-! ### Owned commands and reassembly (`Command`, `extend_from_command_view`) -/

/-- `Command<S>`: the capacity `S` of the heapless data buffer is passed
explicitly to the operations that check it. -/
structure Command where
  cls : Class
  instruction : Instruction
  p1 : Nat
  p2 : Nat
  data : List Nat
  le : Nat
  extended : Bool
deriving DecidableEq, Repr

/-- `CommandView::to_owned::<S>`: copy the data into the fixed buffer, `TooLong`
if it does not fit. -/
def CommandView.to_owned (S : Nat) (v : CommandView) : Except FromSliceError Command :=
  if v.data.length ≤ S then
    .ok ⟨v.cls, v.instruction, v.p1, v.p2, v.data, v.le, v.extended⟩
  else .error .TooLong

/-- `Command::extend_from_command_view`: unconditionally replace the header
fields (and force `extended`), then try to append the fragment's data
(`heapless::Vec::extend_from_slice` checks capacity up front and is
all-or-nothing). Returns the success flag together with the mutated command. -/
def Command.extend_from_command_view (S : Nat) (c : Command) (v : CommandView) :
    Bool × Command :=
  let c' : Command :=
    ⟨v.cls, v.instruction, v.p1, v.p2, c.data, v.le, true⟩
  if c.data.length + v.data.length ≤ S then
    (true, { c' with data := c.data ++ v.data })
  else
    (false, c')

/-- A `CommandView` of a builder fragment, as used when folding fragments into
an accumulator: the fields related by the cross-type equality (`le` via the
`usize` conversion); `extended` plays no role in reassembly (it is forced on
every fold) and is set to `false`. -/
def CommandBuilder.as_view (b : CommandBuilder) : CommandView :=
  ⟨b.cls, b.instruction, b.p1, b.p2, b.data, b.le.to_usize, false⟩

/-- Fold a fragment sequence into one owned command: seed the accumulator with
the first fragment (`to_owned`) and `extend_from_command_view` with each
subsequent one, failing if any step reports a capacity error. -/
def foldFragments (S : Nat) : List CommandView → Option Command
  | [] => none
  | v :: vs =>
    match v.to_owned S with
    | .error _ => none
    | .ok c0 =>
      vs.foldlM (fun c v =>
        let r := c.extend_from_command_view S v
        if r.1 then some r.2 else none) c0

/-! ### Evaluation lemmas for the decoder, one per grammar case -/

theorem parse_lengths_case1 : parse_lengths [] = .ok ⟨0, 0, 0, false⟩ := by decide

theorem parse_lengths_case2S (x : Nat) :
    parse_lengths [x] = .ok ⟨0, replace_zero x 256, 0, false⟩ := by
  simp [parse_lengths]

theorem parse_lengths_case3S (len : Nat) (data : List Nat)
    (hd : data.length = len) (h1 : 1 ≤ len) :
    parse_lengths (len :: data) = .ok ⟨len, 0, 1, false⟩ := by
  unfold parse_lengths
  simp only [List.length_cons, List.getD_cons_zero, hd]
  rw [if_neg (by omega), if_neg (by omega), if_pos (by omega)]

theorem parse_lengths_case4S (len x : Nat) (data : List Nat)
    (hd : data.length = len) (h1 : 1 ≤ len) :
    parse_lengths (len :: (data ++ [x])) = .ok ⟨len, replace_zero x 256, 1, false⟩ := by
  unfold parse_lengths
  have hlen : (len :: (data ++ [x])).length = len + 2 := by simp [hd]
  have hx : (len :: (data ++ [x])).getD (len + 2 - 1) 0 = x := by
    rw [show len + 2 - 1 = len + 1 by omega, List.getD_cons_succ,
      List.getD_append_right data [x] 0 _ (by omega), hd]
    simp
  simp only [hlen, List.getD_cons_zero, hx]
  rw [if_neg (by omega), if_neg (by omega), if_neg (by omega), if_pos (by omega)]

theorem parse_lengths_case2E (hi lo : Nat) :
    parse_lengths [0, hi, lo] = .ok ⟨0, replace_zero (hi * 256 + lo) 65536, 0, true⟩ := by
  unfold parse_lengths
  simp

theorem parse_lengths_case3E (lh ll len : Nat) (data : List Nat)
    (hd : data.length = len) (h1 : 1 ≤ len) (hl : lh * 256 + ll = len) :
    parse_lengths (0 :: lh :: ll :: data) = .ok ⟨len, 0, 3, true⟩ := by
  unfold parse_lengths
  simp only [List.length_cons, List.getD_cons_zero, List.getD_cons_succ, hd, hl]
  have c1 : ¬ (len + 1 + 1 + 1 = 0) := by omega
  have c2 : ¬ (len + 1 + 1 + 1 = 1) := by omega
  have c3 : ¬ (len + 1 + 1 + 1 = 1 + 0 ∧ (0 : Nat) ≠ 0) := by omega
  have c4 : ¬ (len + 1 + 1 + 1 = 2 + 0 ∧ (0 : Nat) ≠ 0) := by omega
  have c5 : ¬ ((0 : Nat) ≠ 0) := by omega
  have c6 : ¬ (len + 1 + 1 + 1 < 3) := by omega
  have c7 : ¬ (len + 1 + 1 + 1 = 3) := by omega
  have c8 : len + 1 + 1 + 1 = 3 + len := by omega
  rw [if_neg c1, if_neg c2, if_neg c3, if_neg c4, if_neg c5, if_neg c6, if_neg c7,
    if_pos c8]

theorem parse_lengths_case4E (lh ll len eh el : Nat) (data : List Nat)
    (hd : data.length = len) (h1 : 1 ≤ len) (hl : lh * 256 + ll = len) :
    parse_lengths (0 :: lh :: ll :: (data ++ [eh, el]))
      = .ok ⟨len, replace_zero (eh * 256 + el) 65536, 3, true⟩ := by
  unfold parse_lengths
  have hlen : (0 :: lh :: ll :: (data ++ [eh, el])).length = len + 5 := by
    simp [hd]
  have heh : (0 :: lh :: ll :: (data ++ [eh, el])).getD (len + 5 - 2) 0 = eh := by
    rw [show len + 5 - 2 = len + 2 + 1 by omega]
    simp only [List.getD_cons_succ, show len + 2 = len + 1 + 1 by omega]
    rw [List.getD_append_right data [eh, el] 0 _ (by omega), hd]
    simp
  have hel : (0 :: lh :: ll :: (data ++ [eh, el])).getD (len + 5 - 1) 0 = el := by
    rw [show len + 5 - 1 = len + 3 + 1 by omega]
    simp only [List.getD_cons_succ, show len + 3 = len + 2 + 1 by omega,
      show len + 2 = len + 1 + 1 by omega]
    rw [List.getD_append_right data [eh, el] 0 _ (by omega), hd]
    simp [show len + 1 - len = 1 by omega]
  simp only [hlen, List.getD_cons_zero, List.getD_cons_succ, hl, heh, hel]
  have d1 : ¬ (len + 5 = 0) := by omega
  have d2 : ¬ (len + 5 = 1) := by omega
  have d3 : ¬ (len + 5 = 1 + 0 ∧ (0 : Nat) ≠ 0) := by omega
  have d4 : ¬ (len + 5 = 2 + 0 ∧ (0 : Nat) ≠ 0) := by omega
  have d5 : ¬ ((0 : Nat) ≠ 0) := by omega
  have d6 : ¬ (len + 5 < 3) := by omega
  have d7 : ¬ (len + 5 = 3) := by omega
  have d8 : ¬ (len + 5 = 3 + len) := by omega
  have d9 : len + 5 = 5 + len := by omega
  rw [if_neg d1, if_neg d2, if_neg d3, if_neg d4, if_neg d5, if_neg d6, if_neg d7,
    if_neg d8, if_pos d9]

/-- Evaluation of `CommandView::try_from` on a 4-byte header followed by a
body whose parse is known. -/
theorem try_from_header (c i q1 q2 : Nat) (body : List Nat) (cls : Class)
    (hc : Class.from_byte c = some cls) (p : ParsedLengths)
    (hp : parse_lengths body = .ok p) :
    CommandView.try_from (c :: i :: q1 :: q2 :: body)
      = .ok ⟨cls, Instruction.from_byte i, q1, q2,
            (body.drop p.offset).take p.lc, p.le, p.extended⟩ := by
  unfold CommandView.try_from
  rw [if_neg (by simp)]
  simp [hc, hp]

/-! ### The serialize/parse round trip at the single-APDU level -/

/-- Whenever the effective `le` is a concrete `Ne n` with `n ≤ 65535`,
serialization succeeds and parsing the produced bytes yields a view with
exactly the builder's class, instruction, `p1`, `p2`, data, and `le = n`. -/
theorem serialize_parse (b : CommandBuilder) (n : Nat)
    (hcls : Class.from_byte b.cls.cla = some b.cls)
    (hins : Instruction.from_byte b.instruction.to_byte = b.instruction)
    (hdata : b.data.length ≤ 65535)
    (heff : b.effective_le = .Ne n) (hn : n ≤ 65535) :
    ∃ ext : Bool,
      b.roundTrip = some ⟨b.cls, b.instruction, b.p1, b.p2, b.data, n, ext⟩ := by
  by_cases h0 : b.data.length = 0
  · -- data is empty: the Lc field is absent and not extended
    have hnil : b.data = [] := List.eq_nil_of_length_eq_zero h0
    have hdl : ∀ e x, serialize_data_len 0 e x = ([], false) := by
      intro e x
      simp [serialize_data_len]
    by_cases hn0 : n = 0
    · -- Case 1: no Le field either
      subst hn0
      have hel : serialize_expected_len b.effective_le false true b.extendedLength
          = some [] := by
        rw [heff]
        simp [serialize_expected_len]
      have hser : b.serialize
          = some [b.cls.cla, b.instruction.to_byte, b.p1, b.p2] := by
        simp [CommandBuilder.serialize, CommandBuilder.header_data, hnil, hdl, hel]
      refine ⟨false, ?_⟩
      rw [CommandBuilder.roundTrip, hser]
      simp only [Option.some_bind,
        try_from_header _ _ _ _ _ _ hcls _ parse_lengths_case1]
      simp [hins, hnil, Except.toOption]
    · by_cases hA2 : n ≤ 255 ∧ b.extendedLength ≠ ExtendedLen.Forced
      · -- Case 2S with a nonzero Le byte
        have hel : serialize_expected_len b.effective_le false true b.extendedLength
            = some [n] := by
          rw [heff]
          simp [serialize_expected_len, hn0, hA2.1, hA2.2, Nat.one_le_iff_ne_zero]
        have hser : b.serialize
            = some [b.cls.cla, b.instruction.to_byte, b.p1, b.p2, n] := by
          simp [CommandBuilder.serialize, CommandBuilder.header_data, hnil, hdl, hel]
        refine ⟨false, ?_⟩
        rw [CommandBuilder.roundTrip, hser]
        simp only [Option.some_bind,
          try_from_header _ _ _ _ _ _ hcls _ (parse_lengths_case2S n)]
        simp [hins, hnil, replace_zero, hn0, Except.toOption]
      · by_cases hA3 : n = 256 ∧ b.extendedLength ≠ ExtendedLen.Forced
        · -- Case 2S with the zero Le byte meaning 256
          have hel : serialize_expected_len b.effective_le false true b.extendedLength
              = some [0] := by
            rw [heff, hA3.1]
            simp [serialize_expected_len, hA3.2]
          have hser : b.serialize
              = some [b.cls.cla, b.instruction.to_byte, b.p1, b.p2, 0] := by
            simp [CommandBuilder.serialize, CommandBuilder.header_data, hnil, hdl, hel]
          refine ⟨false, ?_⟩
          rw [CommandBuilder.roundTrip, hser]
          simp only [Option.some_bind,
            try_from_header _ _ _ _ _ _ hcls _ (parse_lengths_case2S 0)]
          simp [hins, hnil, replace_zero, hA3.1, Except.toOption]
        · -- Case 2E: a 3-byte extended Le field with no data
          have hel : serialize_expected_len b.effective_le false true b.extendedLength
              = some [0, n / 256 % 256, n % 256] := by
            rw [heff]
            simp only [serialize_expected_len]
            rw [if_neg hn0,
              if_neg (fun hh => hA2 ⟨hh.2.1, hh.2.2.2⟩),
              if_neg (fun hh => hA3 ⟨hh.1, hh.2.2⟩),
              if_neg (by simp), if_pos (by simp)]
          have hser : b.serialize
              = some [b.cls.cla, b.instruction.to_byte, b.p1, b.p2, 0,
                      n / 256 % 256, n % 256] := by
            simp [CommandBuilder.serialize, CommandBuilder.header_data, hnil, hdl, hel]
          refine ⟨true, ?_⟩
          rw [CommandBuilder.roundTrip, hser]
          simp only [Option.some_bind,
            try_from_header _ _ _ _ _ _ hcls _
              (parse_lengths_case2E (n / 256 % 256) (n % 256))]
          have harith : replace_zero (n / 256 % 256 * 256 + n % 256) 65536 = n := by
            unfold replace_zero
            split <;> omega
          simp [hins, hnil, harith, Except.toOption]
  · -- data is nonempty
    have hne : b.data ≠ [] := fun h => h0 (by simp [h])
    have hie : b.data.isEmpty = false := by
      cases hd : b.data with
      | nil => exact absurd hd hne
      | cons a l => rfl
    by_cases hB : b.data.length ≤ 255 ∧ n ≤ 256 ∧ b.extendedLength ≠ ExtendedLen.Forced
    · -- short Lc
      have h257 : ¬ (257 ≤ n) := by omega
      have hdl : serialize_data_len b.data.length b.effective_le b.extendedLength
          = ([b.data.length], false) := by
        rw [heff]
        simp only [serialize_data_len]
        rw [if_neg h0, if_pos ⟨hB.1, by simp [h257], hB.2.2⟩]
      by_cases hn0 : n = 0
      · -- Case 3S: Lc byte, data, no Le
        subst hn0
        have hel : serialize_expected_len b.effective_le false false b.extendedLength
            = some [] := by
          rw [heff]
          simp [serialize_expected_len]
        have hser : b.serialize
            = some (b.cls.cla :: b.instruction.to_byte :: b.p1 :: b.p2 ::
                (b.data.length :: b.data)) := by
          simp [CommandBuilder.serialize, CommandBuilder.header_data, hdl, hel, hie]
        refine ⟨false, ?_⟩
        rw [CommandBuilder.roundTrip, hser]
        simp only [Option.some_bind,
          try_from_header _ _ _ _ _ _ hcls _
            (parse_lengths_case3S b.data.length b.data rfl (by omega))]
        simp [hins, List.take_length, Except.toOption]
      · -- Case 4S: Lc byte, data, one Le byte
        have hel : serialize_expected_len b.effective_le false false b.extendedLength
            = some [n % 256] := by
          rw [heff]
          simp only [serialize_expected_len]
          by_cases h256 : n = 256
          · rw [if_neg hn0, if_neg (fun hh => by omega), if_pos ⟨h256, trivial, hB.2.2⟩]
            simp [h256]
          · rw [if_neg hn0, if_pos ⟨by omega, by omega, trivial, hB.2.2⟩]
            have hmod : n % 256 = n := by omega
            simp [hmod]
        have hser : b.serialize
            = some (b.cls.cla :: b.instruction.to_byte :: b.p1 :: b.p2 ::
                (b.data.length :: (b.data ++ [n % 256]))) := by
          simp [CommandBuilder.serialize, CommandBuilder.header_data, hdl, hel, hie]
        refine ⟨false, ?_⟩
        rw [CommandBuilder.roundTrip, hser]
        simp only [Option.some_bind,
          try_from_header _ _ _ _ _ _ hcls _
            (parse_lengths_case4S b.data.length (n % 256) b.data rfl (by omega))]
        have hle : replace_zero (n % 256) 256 = n := by
          unfold replace_zero
          split <;> omega
        simp [hins, hle, List.take_left, Except.toOption]
    · -- extended Lc (large data, large `le`, or forced extended encoding)
      have hdl : serialize_data_len b.data.length b.effective_le b.extendedLength
          = ([0, b.data.length / 256 % 256, b.data.length % 256], true) := by
        rw [heff]
        simp only [serialize_data_len]
        rw [if_neg h0, if_neg (fun hh => by
          rcases hh with ⟨h1, h2, h3⟩
          simp at h2
          exact hB ⟨h1, by omega, h3⟩)]
      have harithl : b.data.length / 256 % 256 * 256 + b.data.length % 256
          = b.data.length := by omega
      by_cases hn0 : n = 0
      · -- Case 3E: extended Lc, data, no Le
        subst hn0
        have hel : serialize_expected_len b.effective_le true false b.extendedLength
            = some [] := by
          rw [heff]
          simp [serialize_expected_len]
        have hser : b.serialize
            = some (b.cls.cla :: b.instruction.to_byte :: b.p1 :: b.p2 ::
                (0 :: b.data.length / 256 % 256 :: b.data.length % 256 :: b.data)) := by
          simp [CommandBuilder.serialize, CommandBuilder.header_data, hdl, hel, hie]
        refine ⟨true, ?_⟩
        rw [CommandBuilder.roundTrip, hser]
        simp only [Option.some_bind,
          try_from_header _ _ _ _ _ _ hcls _
            (parse_lengths_case3E (b.data.length / 256 % 256) (b.data.length % 256)
              b.data.length b.data rfl (by omega) harithl)]
        simp [hins, List.take_length, Except.toOption]
      · -- Case 4E: extended Lc, data, 2-byte Le
        have hel : serialize_expected_len b.effective_le true false b.extendedLength
            = some [n / 256 % 256, n % 256] := by
          rw [heff]
          simp only [serialize_expected_len]
          rw [if_neg hn0, if_neg (by simp), if_neg (by simp), if_pos ⟨trivial, trivial⟩]
        have hser : b.serialize
            = some (b.cls.cla :: b.instruction.to_byte :: b.p1 :: b.p2 ::
                (0 :: b.data.length / 256 % 256 :: b.data.length % 256 ::
                  (b.data ++ [n / 256 % 256, n % 256]))) := by
          simp [CommandBuilder.serialize, CommandBuilder.header_data, hdl, hel, hie]
        refine ⟨true, ?_⟩
        rw [CommandBuilder.roundTrip, hser]
        simp only [Option.some_bind,
          try_from_header _ _ _ _ _ _ hcls _
            (parse_lengths_case4E (b.data.length / 256 % 256) (b.data.length % 256)
              b.data.length (n / 256 % 256) (n % 256) b.data rfl (by omega) harithl)]
        have hle : replace_zero (n / 256 % 256 * 256 + n % 256) 65536 = n := by
          unfold replace_zero
          split <;> omega
        simp [hins, hle, List.take_left, Except.toOption]

/-! ### Helper facts -/

/-- The byte/enum instruction mapping is invertible on instructions that come
from bytes. -/
theorem instruction_from_to_from (i : Nat) :
    Instruction.from_byte (Instruction.to_byte (Instruction.from_byte i))
      = Instruction.from_byte i := by
  by_cases h : i = 0x20 ∨ i = 0x24 ∨ i = 0x2c ∨ i = 0x47 ∨ i = 0x87 ∨ i = 0xa4
      ∨ i = 0xc0 ∨ i = 0xcb ∨ i = 0xdb ∨ i = 0xb0 ∨ i = 0xd0
  · rcases h with h | h | h | h | h | h | h | h | h | h | h <;> subst h <;> decide
  · push_neg at h
    obtain ⟨h1, h2, h3, h4, h5, h6, h7, h8, h9, h10, h11⟩ := h
    simp [Instruction.from_byte, Instruction.to_byte,
      h1, h2, h3, h4, h5, h6, h7, h8, h9, h10, h11]

/-- Under the `Supported` or `Forced` policy the effective `le` is the
requested `le`. -/
theorem effective_le_of_not_unsupported (b : CommandBuilder)
    (h : b.extendedLength ≠ ExtendedLen.Unsupported) : b.effective_le = b.le := by
  simp [CommandBuilder.effective_le, h]

/-- Under the `Unsupported` policy the effective `le` is a concrete value of
at most 256. -/
theorem effective_le_of_unsupported (b : CommandBuilder)
    (h : b.extendedLength = ExtendedLen.Unsupported) :
    ∃ n, b.effective_le = .Ne n ∧ n ≤ 256
      ∧ (b.le = .Ne n ∨ ((256 ≤ b.le.to_usize) ∧ n = 256)) := by
  rw [CommandBuilder.effective_le, if_pos h]
  cases hle : b.le with
  | Ne m =>
    by_cases hm : m ≤ 256
    · exact ⟨m, by simp [ExpectedLen.minE, ExpectedLen.leb, hm], hm, Or.inl rfl⟩
    · refine ⟨256, by simp [ExpectedLen.minE, ExpectedLen.leb]; omega, le_refl _, ?_⟩
      right
      simp [ExpectedLen.to_usize]
      omega
  | Max =>
    exact ⟨256, by simp [ExpectedLen.minE, ExpectedLen.leb], le_refl _,
      Or.inr ⟨by simp [ExpectedLen.to_usize], rfl⟩⟩

/-- The bound on `offset + lc` established by every successful branch of the
decoder. -/
theorem parse_lengths_offset_bound (body : List Nat) (p : ParsedLengths)
    (h : parse_lengths body = .ok p) : p.offset + p.lc ≤ body.length := by
  unfold parse_lengths at h
  split_ifs at h with h1 h2 h3 h4 h5 h6 h7 h8 h9 <;> cases h <;> dsimp only <;> omega

/-! ### C1: builder/view round trip -/

/-- C1: for every valid class, instruction byte, `p1`, `p2`, data of length at
most 65535, and concrete expected length `Ne n` (`n ≤ 65535`), serializing
with extended length supported and parsing the bytes yields a view equal to
the builder under the cross-type equality. (The `Max` sentinel is excluded:
see the counterexample.) -/
theorem C1_roundtrip (b : CommandBuilder) (n : Nat)
    (hcls : Class.from_byte b.cls.cla = some b.cls)
    (hins : Instruction.from_byte b.instruction.to_byte = b.instruction)
    (hdata : b.data.length ≤ 65535)
    (hsupp : b.extendedLength = ExtendedLen.Supported)
    (hle : b.le = .Ne n) (hn : n ≤ 65535) :
    ∃ v, b.roundTrip = some v ∧ builder_eq_view b v := by
  have heff : b.effective_le = .Ne n := by
    rw [effective_le_of_not_unsupported b (by simp [hsupp]), hle]
  obtain ⟨ex, hrt⟩ := serialize_parse b n hcls hins hdata heff hn
  exact ⟨_, hrt, by simp [builder_eq_view, hle, ExpectedLen.to_usize]⟩

/-- C1 witness: a concrete round trip through `C1_roundtrip`. -/
theorem C1_witness :
    ∃ v, CommandBuilder.roundTrip
        ⟨⟨0, .Interindustry .First⟩, .Unknown 1, 2, 3, [5, 6], .Ne 4, .Supported⟩
        = some v
      ∧ builder_eq_view
        ⟨⟨0, .Interindustry .First⟩, .Unknown 1, 2, 3, [5, 6], .Ne 4, .Supported⟩ v :=
  C1_roundtrip _ 4 (by decide) (by decide) (by decide) rfl rfl (by decide)

/-- C1 counterexample: with `le = ExpectedLen::Max` the round trip parses back
`le = 65536`, while the builder's `le` converts to `usize` 65535, so the
cross-type equality fails. -/
theorem C1_counterexample :
    CommandBuilder.roundTrip
        ⟨⟨0, .Interindustry .First⟩, .Unknown 1, 2, 3, [], .Max, .Supported⟩
      = some ⟨⟨0, .Interindustry .First⟩, .Unknown 1, 2, 3, [], 65536, true⟩
    ∧ ¬ builder_eq_view
        ⟨⟨0, .Interindustry .First⟩, .Unknown 1, 2, 3, [], .Max, .Supported⟩
        ⟨⟨0, .Interindustry .First⟩, .Unknown 1, 2, 3, [], 65536, true⟩ := by
  decide

/-! ### C4: `le` clamping under the `Unsupported` policy -/

/-- C4: with extended length unsupported, the effective `le` used by
`header_data` (and hence by `should_split` and serialization) is
`min(le, 256)`; with any other policy the requested `le` is used unmodified;
and the serialization of a valid builder under the unsupported policy always
parses back with `le ≤ 256`. -/
theorem C4_le_clamp :
    (∀ (b : CommandBuilder) (h : BuildingHeaderData),
      b.extendedLength = ExtendedLen.Unsupported → b.header_data = some h →
        h.le = b.le.minE (.Ne 256))
    ∧ (∀ (b : CommandBuilder) (h : BuildingHeaderData),
      b.extendedLength ≠ ExtendedLen.Unsupported → b.header_data = some h →
        h.le = b.le)
    ∧ (∀ (b : CommandBuilder) (s : List Nat) (v : CommandView),
      b.extendedLength = ExtendedLen.Unsupported →
      Class.from_byte b.cls.cla = some b.cls →
      Instruction.from_byte b.instruction.to_byte = b.instruction →
      b.data.length ≤ 65535 →
      b.serialize = some s → CommandView.try_from s = .ok v → v.le ≤ 256) := by
  refine ⟨?_, ?_, ?_⟩
  · intro b h hu hh
    rw [CommandBuilder.header_data] at hh
    rcases ho : serialize_expected_len b.effective_le
        (serialize_data_len b.data.length b.effective_le b.extendedLength).2
        b.data.isEmpty b.extendedLength with _ | e
    · rw [ho] at hh
      cases hh
    · rw [ho] at hh
      cases hh
      rw [CommandBuilder.effective_le, if_pos hu]
  · intro b h hu hh
    rw [CommandBuilder.header_data] at hh
    rcases ho : serialize_expected_len b.effective_le
        (serialize_data_len b.data.length b.effective_le b.extendedLength).2
        b.data.isEmpty b.extendedLength with _ | e
    · rw [ho] at hh
      cases hh
    · rw [ho] at hh
      cases hh
      rw [CommandBuilder.effective_le, if_neg hu]
  · intro b s v hu hcls hins hdata hser htf
    obtain ⟨n, heff, hn, _⟩ := effective_le_of_unsupported b hu
    obtain ⟨ex, hrt⟩ := serialize_parse b n hcls hins hdata heff (by omega)
    rw [CommandBuilder.roundTrip, hser, Option.some_bind, htf] at hrt
    simp only [Except.toOption, Option.some.injEq] at hrt
    rw [hrt]
    exact hn

/-- C4 witness: a builder with `le = 300` and the unsupported policy
serializes and parses back with `le = 256 ≤ 256`. -/
theorem C4_witness :
    (⟨⟨0, .Interindustry .First⟩, .Unknown 1, 2, 3, [5, 6], 256, false⟩
      : CommandView).le ≤ 256 :=
  C4_le_clamp.2.2 ⟨⟨0, .Interindustry .First⟩, .Unknown 1, 2, 3, [5, 6], .Ne 300,
      .Unsupported⟩
    [0, 1, 2, 3, 2, 5, 6, 0] _ rfl (by decide) (by decide) (by decide)
    (by decide) (by decide)

/-! ### C5: literal case coverage of the decoder -/

/-- C5: the five literal bodies decode exactly as specified (cases 1, 2S with
a nonzero byte, 2S with the zero byte meaning 256, 4S with a zero Le byte
meaning 256, and 2E). -/
theorem C5_literal_cases :
    parse_lengths [] = .ok ⟨0, 0, 0, false⟩
    ∧ parse_lengths [0x04] = .ok ⟨0, 4, 0, false⟩
    ∧ parse_lengths [0x00] = .ok ⟨0, 256, 0, false⟩
    ∧ parse_lengths [0x02, 0xB6, 0x00, 0x00] = .ok ⟨2, 256, 1, false⟩
    ∧ parse_lengths [0x00, 0x00, 0x04] = .ok ⟨0, 4, 0, true⟩ := by
  decide

/-! ### C6: rejection of bodies matching no case -/

/-- C6: a body that matches none of cases 1/2S/3S/4S and none of 2E/3E/4E is
rejected, with `InvalidFirstBodyByteForExtended` exactly when the first body
byte is nonzero (after the short cases failed) and `InvalidSliceLength`
otherwise; no silently-wrong parse is possible. -/
theorem C6_reject (body : List Nat)
    (hshort : ¬ (body.length = 0 ∨ body.length = 1
      ∨ (body.length = 1 + body.getD 0 0 ∧ body.getD 0 0 ≠ 0)
      ∨ (body.length = 2 + body.getD 0 0 ∧ body.getD 0 0 ≠ 0)))
    (hext : ¬ (body.getD 0 0 = 0 ∧ 3 ≤ body.length
      ∧ (body.length = 3
        ∨ body.length = 3 + (body.getD 1 0 * 256 + body.getD 2 0)
        ∨ body.length = 5 + (body.getD 1 0 * 256 + body.getD 2 0)))) :
    parse_lengths body
      = .error (if body.getD 0 0 ≠ 0 then .InvalidFirstBodyByteForExtended
                else .InvalidSliceLength) := by
  push_neg at hshort
  obtain ⟨h1, h2, h3, h4⟩ := hshort
  unfold parse_lengths
  rw [if_neg h1, if_neg h2, if_neg (fun hh => hh.2 (h3 hh.1)), if_neg (fun hh => hh.2 (h4 hh.1))]
  by_cases hb1 : body.getD 0 0 ≠ 0
  · rw [if_pos hb1, if_pos hb1]
  · push_neg at hb1
    rw [hb1, if_neg (fun hh : (0 : Nat) ≠ 0 => hh rfl),
      if_neg (fun hh : (0 : Nat) ≠ 0 => hh rfl)]
    by_cases hl3 : body.length < 3
    · rw [if_pos hl3]
    · push_neg at hext
      obtain ⟨e1, e2, e3⟩ := hext hb1 (by omega)
      rw [if_neg hl3, if_neg e1, if_neg e2, if_neg e3]

/-- C6 witness: `[3, 9]` matches no case (its first byte is nonzero) and is
rejected with `InvalidFirstBodyByteForExtended`. -/
theorem C6_witness :
    parse_lengths [3, 9]
      = .error (if [3, 9].getD 0 0 ≠ 0 then .InvalidFirstBodyByteForExtended
                else .InvalidSliceLength) :=
  C6_reject [3, 9] (by decide) (by decide)

/-! ### C7: totality and in-bounds data extraction -/

/-- C7: decoding is total — every successful `parse_lengths` satisfies
`offset + lc ≤ body.length`, so the data-slice extraction of
`CommandView::try_from` is in bounds: every successful view's data is exactly
the `lc`-byte slice at `offset`. -/
theorem C7_total_inbounds :
    (∀ (body : List Nat) (p : ParsedLengths),
      parse_lengths body = .ok p → p.offset + p.lc ≤ body.length)
    ∧ (∀ (apdu : List Nat) (v : CommandView),
      CommandView.try_from apdu = .ok v →
        ∃ p, parse_lengths (apdu.drop 4) = .ok p
          ∧ v.data = ((apdu.drop 4).drop p.offset).take p.lc
          ∧ v.data.length = p.lc) := by
  refine ⟨parse_lengths_offset_bound, ?_⟩
  intro apdu v h
  unfold CommandView.try_from at h
  split_ifs at h with hlt
  split at h
  · cases h
  · split at h
    · cases h
    · rename_i parsed hparse
      cases h
      refine ⟨parsed, hparse, rfl, ?_⟩
      have hb := parse_lengths_offset_bound _ _ hparse
      simp only [List.length_drop] at hb
      simp only [List.length_take, List.length_drop]
      omega

/-- C7 witness: the view parsed from a concrete 8-byte APDU has its data slice
in bounds. -/
theorem C7_witness :
    ∃ p, parse_lengths (([0, 1, 2, 3, 2, 5, 6, 4] : List Nat).drop 4) = .ok p
      ∧ (⟨⟨0, .Interindustry .First⟩, .Unknown 1, 2, 3, [5, 6], 4, false⟩
          : CommandView).data
        = ((([0, 1, 2, 3, 2, 5, 6, 4] : List Nat).drop 4).drop p.offset).take p.lc
      ∧ (⟨⟨0, .Interindustry .First⟩, .Unknown 1, 2, 3, [5, 6], 4, false⟩
          : CommandView).data.length = p.lc :=
  C7_total_inbounds.2 [0, 1, 2, 3, 2, 5, 6, 4] _ (by decide)

/-- The `le` recorded in a successful `header_data` is the effective
(possibly clamped) `le`. -/
theorem header_data_le_eq (b : CommandBuilder) (hd : BuildingHeaderData)
    (h : b.header_data = some hd) : hd.le = b.effective_le := by
  unfold CommandBuilder.header_data at h
  rcases ho : serialize_expected_len b.effective_le
      (serialize_data_len b.data.length b.effective_le b.extendedLength).2
      b.data.isEmpty b.extendedLength with _ | e
  · rw [ho] at h
    cases h
  · rw [ho] at h
    cases h
    rfl

/-- `should_split` as a flat conditional, once the header data is known. -/
theorem should_split_eq (b : CommandBuilder) (al : Nat) (hd : BuildingHeaderData)
    (hhd : b.header_data = some hd) :
    b.should_split al
      = if al < 4 then SplitResult.fatal
        else if b.data.length ≤ b.available_data_len al hd then .noSplit
        else if b.available_data_len al hd = 0 then .fatal
        else .split
          ⟨b.cls.as_chained, b.instruction, b.p1, b.p2,
            b.data.take (b.available_data_len al hd), .Ne 0, b.extendedLength⟩
          ⟨b.cls, b.instruction, b.p1, b.p2,
            b.data.drop (b.available_data_len al hd), hd.le, b.extendedLength⟩ := by
  unfold CommandBuilder.should_split
  rw [hhd]

/-- What a successful split looks like (shared shape lemma). -/
theorem split_spec (b : CommandBuilder) (al : Nat) (now later : CommandBuilder)
    (h : b.should_split al = .split now later) :
    ∃ hd, b.header_data = some hd
      ∧ 1 ≤ b.available_data_len al hd
      ∧ b.available_data_len al hd < b.data.length
      ∧ now = ⟨b.cls.as_chained, b.instruction, b.p1, b.p2,
          b.data.take (b.available_data_len al hd), .Ne 0, b.extendedLength⟩
      ∧ later = ⟨b.cls, b.instruction, b.p1, b.p2,
          b.data.drop (b.available_data_len al hd), b.effective_le,
          b.extendedLength⟩ := by
  rcases hhd : b.header_data with _ | hd
  · have heq0 : b.should_split al = if al < 4 then SplitResult.fatal
        else SplitResult.fatal := by
      unfold CommandBuilder.should_split
      rw [hhd]
    rw [heq0] at h
    split_ifs at h
  · rw [should_split_eq b al hd hhd] at h
    split_ifs at h with h4 hfit hzero
    all_goals cases h
    refine ⟨hd, rfl, by omega, by omega, rfl, ?_⟩
    rw [header_data_le_eq b hd hhd]

/-! ### C3: the shape of the two halves of a split -/

/-- C3: whenever `should_split` returns a pair, `send_now` carries the chained
class, the same instruction, `p1`, `p2`, `le = 0`, and the first
`available_data_len` bytes of the payload, while `send_later` keeps the
original (unchained) class, instruction, `p1`, `p2`, the remaining payload,
and the *effective* `le` (the requested `le` clamped to 256 when extended
length is unsupported — not always the original `le`; see the
counterexample). -/
theorem C3_split_shape (b : CommandBuilder) (al : Nat) (now later : CommandBuilder)
    (h : b.should_split al = .split now later) :
    ∃ hd, b.header_data = some hd
      ∧ 1 ≤ b.available_data_len al hd
      ∧ b.available_data_len al hd < b.data.length
      ∧ now = ⟨b.cls.as_chained, b.instruction, b.p1, b.p2,
          b.data.take (b.available_data_len al hd), .Ne 0, b.extendedLength⟩
      ∧ later = ⟨b.cls, b.instruction, b.p1, b.p2,
          b.data.drop (b.available_data_len al hd), b.effective_le,
          b.extendedLength⟩ :=
  split_spec b al now later h

/-- C3 witness: a concrete split through `C3_split_shape`. -/
theorem C3_witness :
    ∃ hd, CommandBuilder.header_data
        ⟨⟨0, .Interindustry .First⟩, .Unknown 1, 2, 3, [7, 8, 9, 10, 11, 12], .Ne 0,
          .Supported⟩ = some hd
      ∧ 1 ≤ CommandBuilder.available_data_len
          ⟨⟨0, .Interindustry .First⟩, .Unknown 1, 2, 3, [7, 8, 9, 10, 11, 12], .Ne 0,
            .Supported⟩ 9 hd
      ∧ CommandBuilder.available_data_len
          ⟨⟨0, .Interindustry .First⟩, .Unknown 1, 2, 3, [7, 8, 9, 10, 11, 12], .Ne 0,
            .Supported⟩ 9 hd
        < (⟨⟨0, .Interindustry .First⟩, .Unknown 1, 2, 3, [7, 8, 9, 10, 11, 12], .Ne 0,
            .Supported⟩ : CommandBuilder).data.length
      ∧ (⟨⟨16, .Interindustry .First⟩, .Unknown 1, 2, 3, [7, 8, 9, 10], .Ne 0,
          .Supported⟩ : CommandBuilder)
        = ⟨(⟨0, .Interindustry .First⟩ : Class).as_chained, .Unknown 1, 2, 3,
            ([7, 8, 9, 10, 11, 12] : List Nat).take (CommandBuilder.available_data_len
              ⟨⟨0, .Interindustry .First⟩, .Unknown 1, 2, 3, [7, 8, 9, 10, 11, 12],
                .Ne 0, .Supported⟩ 9 hd), .Ne 0, .Supported⟩
      ∧ (⟨⟨0, .Interindustry .First⟩, .Unknown 1, 2, 3, [11, 12], .Ne 0, .Supported⟩
          : CommandBuilder)
        = ⟨⟨0, .Interindustry .First⟩, .Unknown 1, 2, 3,
            ([7, 8, 9, 10, 11, 12] : List Nat).drop (CommandBuilder.available_data_len
              ⟨⟨0, .Interindustry .First⟩, .Unknown 1, 2, 3, [7, 8, 9, 10, 11, 12],
                .Ne 0, .Supported⟩ 9 hd),
            CommandBuilder.effective_le
              ⟨⟨0, .Interindustry .First⟩, .Unknown 1, 2, 3, [7, 8, 9, 10, 11, 12],
                .Ne 0, .Supported⟩, .Supported⟩ :=
  C3_split_shape _ 9 _ _ (by decide)

/-- C3 counterexample: with the `Unsupported` policy and requested `le = 300`,
`send_later` carries the clamped `le = 256`, not the original `le = 300`. -/
theorem C3_counterexample :
    CommandBuilder.should_split
        ⟨⟨0, .Interindustry .First⟩, .Unknown 1, 2, 3, List.replicate 10 0, .Ne 300,
          .Unsupported⟩ 10
      = .split
          ⟨⟨16, .Interindustry .First⟩, .Unknown 1, 2, 3, List.replicate 4 0, .Ne 0,
            .Unsupported⟩
          ⟨⟨0, .Interindustry .First⟩, .Unknown 1, 2, 3, List.replicate 6 0, .Ne 256,
            .Unsupported⟩
    ∧ (ExpectedLen.Ne 256) ≠ (.Ne 300) := by
  decide

/-! ### C8: idempotence and validity of `as_chained` -/

set_option maxRecDepth 4000 in
/-- C8: `as_chained` is idempotent on every valid class; and except for the
class byte `0xEF` (whose chained byte is the invalid `0xFF` — see the
counterexample), the chained class byte is again a valid class parsing back
to the chained class. -/
theorem C8_as_chained (c : Nat) (cls : Class) (hc : c < 256)
    (h : Class.from_byte c = some cls) :
    cls.as_chained.as_chained = cls.as_chained
    ∧ (c ≠ 0xEF → Class.from_byte cls.as_chained.cla = some cls.as_chained) := by
  have hcla : cls.cla = c ∧ ClassRange.from_cla c = some cls.range := by
    unfold Class.from_byte at h
    rcases hr : ClassRange.from_cla c with _ | r
    · rw [hr] at h
      cases h
    · rw [hr] at h
      cases h
      exact ⟨rfl, rfl⟩
  obtain ⟨hcc, hrr⟩ := hcla
  constructor
  · simp [Class.as_chained, Nat.or_assoc, Nat.or_self]
  · intro hEF
    have key : ∀ x : Nat, x < 256 → x ≠ 0xEF →
        ClassRange.from_cla (x ||| 1 <<< 4) = ClassRange.from_cla x := by decide
    have k := key c hc hEF
    rw [hrr] at k
    have k16 : ClassRange.from_cla (c ||| 16) = some cls.range := k
    simp [Class.from_byte, Class.as_chained, hcc, k16]

/-- C8 witness: the zero class chains idempotently to the valid class `0x10`. -/
theorem C8_witness :
    (Class.as_chained (Class.as_chained ⟨0, .Interindustry .First⟩)
      = Class.as_chained ⟨0, .Interindustry .First⟩)
    ∧ ((0 : Nat) ≠ 0xEF →
      Class.from_byte (Class.as_chained ⟨0, .Interindustry .First⟩).cla
        = some (Class.as_chained ⟨0, .Interindustry .First⟩)) :=
  C8_as_chained 0 ⟨0, .Interindustry .First⟩ (by decide) (by decide)

/-- C8 counterexample: the valid (proprietary) class byte `0xEF` chains to the
byte `0xFF`, which `from_byte` always rejects. -/
theorem C8_counterexample :
    Class.from_byte 0xEF = some ⟨0xEF, .Proprietary⟩
    ∧ (Class.as_chained ⟨0xEF, .Proprietary⟩).cla = 0xFF
    ∧ Class.from_byte ((Class.as_chained ⟨0xEF, .Proprietary⟩).cla) = none := by
  decide

/-! ### C9: the channel number -/

/-- C9: `channel()` returns a value in `0..=19` exactly for the First and
Further interindustry ranges; for the Reserved interindustry range (contrary
to the claim — see the counterexample) and for the Proprietary range it
returns `None`. -/
theorem C9_channel (cls : Class) :
    ((cls.range = .Interindustry .First ∨ cls.range = .Interindustry .Further) →
      ∃ n, cls.channel = some n ∧ n ≤ 19)
    ∧ ((cls.range = .Interindustry .Reserved ∨ cls.range = .Proprietary) →
      cls.channel = none) := by
  constructor
  · rintro (h | h)
    · exact ⟨cls.cla &&& 3, by simp [Class.channel, h],
        le_trans Nat.and_le_right (by norm_num)⟩
    · exact ⟨(4 + cls.cla) % 256 &&& 7, by simp [Class.channel, h],
        le_trans Nat.and_le_right (by norm_num)⟩
  · rintro (h | h) <;> simp [Class.channel, h]

/-- C9 witness: the zero class (first interindustry) has a channel in range. -/
theorem C9_witness :
    ∃ n, Class.channel ⟨0, .Interindustry .First⟩ = some n ∧ n ≤ 19 :=
  (C9_channel ⟨0, .Interindustry .First⟩).1 (Or.inl rfl)

/-- C9 counterexample: the class byte `0x20` is reserved interindustry, yet
`channel()` returns `None` for it. -/
theorem C9_counterexample :
    Class.from_byte 0x20 = some ⟨0x20, .Interindustry .Reserved⟩
    ∧ Class.channel ⟨0x20, .Interindustry .Reserved⟩ = none := by
  decide

/-! ### C10: non-atomicity of `extend_from_command_view` on failure -/

/-- C10: when the fragment's data does not fit into the accumulator's
remaining capacity, `extend_from_command_view` reports failure and leaves the
stored data unchanged, but has already replaced the header fields (class,
instruction, `p1`, `p2`, `le`) with the fragment's and set `extended` to
`true`. -/
theorem C10_extend_not_atomic (S : Nat) (c : Command) (v : CommandView)
    (h : S < c.data.length + v.data.length) :
    c.extend_from_command_view S v
      = (false, ⟨v.cls, v.instruction, v.p1, v.p2, c.data, v.le, true⟩) := by
  unfold Command.extend_from_command_view
  rw [if_neg (by omega)]

/-- C10 witness: a zero-capacity accumulator rejects a 1-byte fragment but
still takes over its header. -/
theorem C10_witness :
    Command.extend_from_command_view 0
        ⟨⟨0, .Interindustry .First⟩, .Unknown 1, 2, 3, [], 0, false⟩
        ⟨⟨4, .Interindustry .First⟩, .Unknown 5, 6, 7, [9], 8, false⟩
      = (false, ⟨⟨4, .Interindustry .First⟩, .Unknown 5, 6, 7, [], 8, true⟩) :=
  C10_extend_not_atomic 0 _ _ (by decide)

/-! ### Facts for chaining: `header_data` never panics, splits shrink -/

/-- `header_data` always succeeds (the `unreachable!` arms of
`serialize_expected_len` cannot be selected by `header_data`), records the
effective `le`, and — when there is payload data — emits at most 5 bytes of
length fields. -/
theorem header_data_some (b : CommandBuilder) :
    ∃ hd, b.header_data = some hd ∧ hd.le = b.effective_le
      ∧ (b.data ≠ [] → hd.data_len.length + hd.expected_data_len.length ≤ 5) := by
  rcases heff : b.effective_le with n | _
  · by_cases h0 : b.data.length = 0
    · have hnil : b.data = [] := List.eq_nil_of_length_eq_zero h0
      have hdl : ∀ e x, serialize_data_len 0 e x = ([], false) := fun e x => by
        simp [serialize_data_len]
      by_cases hn0 : n = 0
      · refine ⟨⟨.Ne n, [], []⟩, ?_, rfl, fun hne => absurd hnil hne⟩
        have hel : serialize_expected_len (ExpectedLen.Ne n) false true b.extendedLength
            = some [] := by
          simp [serialize_expected_len, hn0]
        simp [CommandBuilder.header_data, hnil, hdl, heff, hel]
      · by_cases hA2 : n ≤ 255 ∧ b.extendedLength ≠ ExtendedLen.Forced
        · refine ⟨⟨.Ne n, [], [n]⟩, ?_, rfl, fun hne => absurd hnil hne⟩
          have hel : serialize_expected_len (ExpectedLen.Ne n) false true b.extendedLength
              = some [n] := by
            simp [serialize_expected_len, hn0, hA2.1, hA2.2, Nat.one_le_iff_ne_zero]
          simp [CommandBuilder.header_data, hnil, hdl, heff, hel]
        · by_cases hA3 : n = 256 ∧ b.extendedLength ≠ ExtendedLen.Forced
          · refine ⟨⟨.Ne n, [], [0]⟩, ?_, rfl, fun hne => absurd hnil hne⟩
            have hel : serialize_expected_len (ExpectedLen.Ne n) false true b.extendedLength
                = some [0] := by
              rw [hA3.1]
              simp [serialize_expected_len, hA3.2]
            simp [CommandBuilder.header_data, hnil, hdl, heff, hel]
          · refine ⟨⟨.Ne n, [], [0, n / 256 % 256, n % 256]⟩, ?_, rfl,
              fun hne => absurd hnil hne⟩
            have hel : serialize_expected_len (ExpectedLen.Ne n) false true b.extendedLength
                = some [0, n / 256 % 256, n % 256] := by
              simp only [serialize_expected_len]
              rw [if_neg hn0, if_neg (fun hh => hA2 ⟨hh.2.1, hh.2.2.2⟩),
                if_neg (fun hh => hA3 ⟨hh.1, hh.2.2⟩), if_neg (by simp), if_pos (by simp)]
            simp [CommandBuilder.header_data, hnil, hdl, heff, hel]
    · have hne : b.data ≠ [] := fun h => h0 (by simp [h])
      have hie : b.data.isEmpty = false := by
        cases hd : b.data with
        | nil => exact absurd hd hne
        | cons a l => rfl
      by_cases hB : b.data.length ≤ 255 ∧ n ≤ 256 ∧ b.extendedLength ≠ ExtendedLen.Forced
      · have h257 : ¬ (257 ≤ n) := by omega
        have hdl : serialize_data_len b.data.length (ExpectedLen.Ne n) b.extendedLength
            = ([b.data.length], false) := by
          simp only [serialize_data_len]
          rw [if_neg h0, if_pos ⟨hB.1, by simp [h257], hB.2.2⟩]
        by_cases hn0 : n = 0
        · refine ⟨⟨.Ne n, [b.data.length], []⟩, ?_, rfl, fun _ => by simp⟩
          have hel : serialize_expected_len (ExpectedLen.Ne n) false false b.extendedLength
              = some [] := by
            simp [serialize_expected_len, hn0]
          simp [CommandBuilder.header_data, heff, hdl, hel, hie]
        · refine ⟨⟨.Ne n, [b.data.length], [n % 256]⟩, ?_, rfl, fun _ => by simp⟩
          have hel : serialize_expected_len (ExpectedLen.Ne n) false false b.extendedLength
              = some [n % 256] := by
            simp only [serialize_expected_len]
            by_cases h256 : n = 256
            · rw [if_neg hn0, if_neg (fun hh => by omega), if_pos ⟨h256, trivial, hB.2.2⟩]
              simp [h256]
            · rw [if_neg hn0, if_pos ⟨by omega, by omega, trivial, hB.2.2⟩]
              have hmod : n % 256 = n := by omega
              simp [hmod]
          simp [CommandBuilder.header_data, heff, hdl, hel, hie]
      · have hdl : serialize_data_len b.data.length (ExpectedLen.Ne n) b.extendedLength
            = ([0, b.data.length / 256 % 256, b.data.length % 256], true) := by
          simp only [serialize_data_len]
          rw [if_neg h0, if_neg (fun hh => by
            rcases hh with ⟨h1, h2, h3⟩
            simp at h2
            exact hB ⟨h1, by omega, h3⟩)]
        by_cases hn0 : n = 0
        · refine ⟨⟨.Ne n, [0, b.data.length / 256 % 256, b.data.length % 256], []⟩, ?_,
            rfl, fun _ => by simp⟩
          have hel : serialize_expected_len (ExpectedLen.Ne n) true false b.extendedLength
              = some [] := by
            simp [serialize_expected_len, hn0]
          simp [CommandBuilder.header_data, heff, hdl, hel, hie]
        · refine ⟨⟨.Ne n, [0, b.data.length / 256 % 256, b.data.length % 256],
            [n / 256 % 256, n % 256]⟩, ?_, rfl, fun _ => by simp⟩
          have hel : serialize_expected_len (ExpectedLen.Ne n) true false b.extendedLength
              = some [n / 256 % 256, n % 256] := by
            simp only [serialize_expected_len]
            rw [if_neg hn0, if_neg (by simp), if_neg (by simp), if_pos ⟨trivial, trivial⟩]
          simp [CommandBuilder.header_data, heff, hdl, hel, hie]
  · by_cases h0 : b.data.length = 0
    · have hnil : b.data = [] := List.eq_nil_of_length_eq_zero h0
      have hdl : ∀ e x, serialize_data_len 0 e x = ([], false) := fun e x => by
        simp [serialize_data_len]
      refine ⟨⟨.Max, [], [0, 0, 0]⟩, ?_, rfl, fun hne => absurd hnil hne⟩
      have hel : serialize_expected_len ExpectedLen.Max false true b.extendedLength
          = some [0, 0, 0] := by
        simp [serialize_expected_len]
      simp [CommandBuilder.header_data, hnil, hdl, heff, hel]
    · have hne : b.data ≠ [] := fun h => h0 (by simp [h])
      have hie : b.data.isEmpty = false := by
        cases hd : b.data with
        | nil => exact absurd hd hne
        | cons a l => rfl
      have hdl : serialize_data_len b.data.length ExpectedLen.Max b.extendedLength
          = ([0, b.data.length / 256 % 256, b.data.length % 256], true) := by
        simp only [serialize_data_len]
        rw [if_neg h0, if_neg (fun hh => by simp at hh)]
      refine ⟨⟨.Max, [0, b.data.length / 256 % 256, b.data.length % 256], [0, 0]⟩, ?_,
        rfl, fun _ => by simp⟩
      have hel : serialize_expected_len ExpectedLen.Max true false b.extendedLength
          = some [0, 0] := by
        simp [serialize_expected_len]
      simp [CommandBuilder.header_data, heff, hdl, hel, hie]

/-- With at least 10 bytes of room, `should_split` never hits a panic. -/
theorem should_split_not_fatal (b : CommandBuilder) (al : Nat) (h10 : 10 ≤ al) :
    b.should_split al ≠ SplitResult.fatal := by
  obtain ⟨hd, hhd, _, hbound⟩ := header_data_some b
  rw [should_split_eq b al hd hhd]
  split_ifs with h4 hfit hzero
  · exact absurd h4 (by omega)
  · simp
  · exfalso
    have hne : b.data ≠ [] := by
      intro hn
      rw [hn] at hfit
      simp at hfit
    have hb := hbound hne
    unfold CommandBuilder.available_data_len at hzero
    have hmax : (if b.extendedLength = ExtendedLen.Unsupported then (255 : Nat)
        else 65535) ≥ 255 := by
      split_ifs <;> omega
    omega
  · simp

/-- A split strictly shrinks the remaining payload, splits the payload at the
boundary, and `send_later` keeps the header with the effective `le`. -/
theorem split_decrease (b : CommandBuilder) (al : Nat) (now later : CommandBuilder)
    (h : b.should_split al = .split now later) :
    later.data.length < b.data.length
    ∧ now.data ++ later.data = b.data
    ∧ later.cls = b.cls ∧ later.instruction = b.instruction ∧ later.p1 = b.p1
    ∧ later.p2 = b.p2 ∧ later.le = b.effective_le
    ∧ later.extendedLength = b.extendedLength := by
  obtain ⟨hd, hhd, h1, h2, hnow, hlater⟩ := split_spec b al now later h
  subst hnow
  subst hlater
  refine ⟨?_, ?_, rfl, rfl, rfl, rfl, rfl, rfl⟩
  · simp only [List.length_drop]
    omega
  · exact List.take_append_drop _ _

/-- The fragment sequence produced by repeated splitting: it exists (no
panic), is nonempty, concatenates to the original payload, and its last
fragment carries the original header and `le`. -/
theorem chainAux_spec (al : Nat) (h10 : 10 ≤ al) :
    ∀ (fuel : Nat) (b : CommandBuilder), b.data.length < fuel →
      (b.extendedLength = ExtendedLen.Unsupported → ∃ n, n ≤ 256 ∧ b.le = .Ne n) →
      ∃ frags, chainFragmentsAux fuel b al = some frags
        ∧ frags ≠ []
        ∧ (frags.map CommandBuilder.data).flatten = b.data
        ∧ ∃ last, frags.getLast? = some last ∧ last.cls = b.cls
            ∧ last.instruction = b.instruction ∧ last.p1 = b.p1 ∧ last.p2 = b.p2
            ∧ last.le = b.le := by
  intro fuel
  induction fuel with
  | zero => exact fun b hf _ => absurd hf (by omega)
  | succ fuel ih =>
    intro b hf hle
    rcases hsp : b.should_split al with _ | _ | ⟨now, later⟩
    · exact absurd hsp (should_split_not_fatal b al h10)
    · refine ⟨[b], ?_, by simp, by simp, b, by simp, rfl, rfl, rfl, rfl, rfl⟩
      simp [chainFragmentsAux, hsp]
    · obtain ⟨hlt, hconcat, hcls, hins, hp1, hp2, hle', hext⟩ :=
        split_decrease b al now later hsp
      have hleff : b.effective_le = b.le := by
        by_cases hu : b.extendedLength = ExtendedLen.Unsupported
        · obtain ⟨n, hn, hbn⟩ := hle hu
          rw [CommandBuilder.effective_le, if_pos hu, hbn]
          simp [ExpectedLen.minE, ExpectedLen.leb, hn]
        · exact effective_le_of_not_unsupported b hu
      have hlater_hyp : later.extendedLength = ExtendedLen.Unsupported →
          ∃ n, n ≤ 256 ∧ later.le = .Ne n := by
        intro hu
        rw [hext] at hu
        obtain ⟨n, hn, hbn⟩ := hle hu
        exact ⟨n, hn, by rw [hle', hleff, hbn]⟩
      obtain ⟨frags', hfr, hfne, hfconcat, last, hlast, hl1, hl2, hl3, hl4, hl5⟩ :=
        ih later (by omega) hlater_hyp
      refine ⟨now :: frags', ?_, by simp, ?_, last, ?_, by rw [hl1, hcls],
        by rw [hl2, hins], by rw [hl3, hp1], by rw [hl4, hp2],
        by rw [hl5, hle', hleff]⟩
      · simp [chainFragmentsAux, hsp, hfr]
      · simp only [List.map_cons, List.flatten_cons, hfconcat, hconcat]
      · cases frags' with
        | nil => exact absurd rfl hfne
        | cons f fs =>
          rw [List.getLast?_cons_cons]
          exact hlast

/-- The fragment sequence of `chainFragments`, with the same properties. -/
theorem chainFragments_spec (b : CommandBuilder) (al : Nat) (h10 : 10 ≤ al)
    (hle : b.extendedLength = ExtendedLen.Unsupported → ∃ n, n ≤ 256 ∧ b.le = .Ne n) :
    ∃ frags, chainFragments b al = some frags
      ∧ frags ≠ []
      ∧ (frags.map CommandBuilder.data).flatten = b.data
      ∧ ∃ last, frags.getLast? = some last ∧ last.cls = b.cls
          ∧ last.instruction = b.instruction ∧ last.p1 = b.p1 ∧ last.p2 = b.p2
          ∧ last.le = b.le :=
  chainAux_spec al h10 (b.data.length + 1) b (by omega) hle

/-- Folding views into an accumulator with `extend_from_command_view`: if the
total data fits, the fold succeeds, appends all the data, and takes the last
view's header (or keeps the accumulator when there is nothing to fold). -/
theorem foldlM_extend_spec (S : Nat) :
    ∀ (vs : List CommandView) (c0 : Command),
      c0.data.length + ((vs.map CommandView.data).map List.length).sum ≤ S →
      ∃ c, List.foldlM (fun c v =>
          let r := Command.extend_from_command_view S c v
          if r.1 then some r.2 else none) c0 vs = some c
        ∧ c.data = c0.data ++ (vs.map CommandView.data).flatten
        ∧ ((vs = [] ∧ c = c0)
          ∨ (∃ vl, vs.getLast? = some vl ∧ c.cls = vl.cls
              ∧ c.instruction = vl.instruction ∧ c.p1 = vl.p1 ∧ c.p2 = vl.p2
              ∧ c.le = vl.le)) := by
  intro vs
  induction vs with
  | nil =>
    intro c0 h
    exact ⟨c0, rfl, by simp, Or.inl ⟨rfl, rfl⟩⟩
  | cons v vs ih =>
    intro c0 h
    simp only [List.map_cons, List.sum_cons] at h
    have hfit : c0.data.length + v.data.length ≤ S := by omega
    have hstep : c0.extend_from_command_view S v
        = (true, ⟨v.cls, v.instruction, v.p1, v.p2, c0.data ++ v.data, v.le, true⟩) := by
      unfold Command.extend_from_command_view
      rw [if_pos hfit]
    obtain ⟨c, hfold, hdata, hrest⟩ :=
      ih ⟨v.cls, v.instruction, v.p1, v.p2, c0.data ++ v.data, v.le, true⟩
        (by dsimp only; simp only [List.length_append]; omega)
    refine ⟨c, ?_, ?_, ?_⟩
    · simp only [List.foldlM_cons, hstep]
      simpa using hfold
    · rw [hdata]
      simp
    · right
      rcases hrest with ⟨hnil, hcc⟩ | ⟨vl, hvl, hr1, hr2, hr3, hr4, hr5⟩
      · subst hnil
        exact ⟨v, by simp, by rw [hcc], by rw [hcc], by rw [hcc], by rw [hcc],
          by rw [hcc]⟩
      · cases vs with
        | nil => cases hvl
        | cons w ws =>
          exact ⟨vl, by rw [List.getLast?_cons_cons]; exact hvl, hr1, hr2, hr3, hr4, hr5⟩

/-! ### C2: chaining splits and reassembly -/

/-- C2: for any payload (of builder-legal length) and any fixed
`available_len ≥ 10` (at exactly 9 the source can panic — see the
counterexample), repeatedly applying `should_split` until `None` yields a
nonempty fragment sequence whose payloads concatenate to the original
payload; and folding those fragments via `extend_from_command_view` into an
accumulator seeded with the first fragment (capacity permitting) reproduces
the original header, data, and `le`. When the policy is `Unsupported` the
requested `le` must not exceed 256 (otherwise the final fragment carries the
clamped `le`, cf. C3/C4). -/
theorem C2_chaining_roundtrip (b : CommandBuilder) (al S : Nat)
    (h10 : 10 ≤ al)
    (hle : b.extendedLength = ExtendedLen.Unsupported → ∃ n, n ≤ 256 ∧ b.le = .Ne n)
    (hS : b.data.length ≤ S) :
    ∃ frags c, chainFragments b al = some frags
      ∧ frags ≠ []
      ∧ (frags.map CommandBuilder.data).flatten = b.data
      ∧ foldFragments S (frags.map CommandBuilder.as_view) = some c
      ∧ c.cls = b.cls ∧ c.instruction = b.instruction ∧ c.p1 = b.p1 ∧ c.p2 = b.p2
      ∧ c.data = b.data ∧ c.le = b.le.to_usize := by
  obtain ⟨frags, hfr, hfne, hconcat, last, hlast, hl1, hl2, hl3, hl4, hl5⟩ :=
    chainFragments_spec b al h10 hle
  cases frags with
  | nil => exact absurd rfl hfne
  | cons f0 rest =>
    have hlen := congrArg List.length hconcat
    simp only [List.map_cons, List.flatten_cons, List.length_append,
      List.length_flatten] at hlen
    have ht0 : (CommandBuilder.as_view f0).data.length ≤ S := by
      dsimp [CommandBuilder.as_view]
      omega
    have hmapdata : (rest.map CommandBuilder.as_view).map CommandView.data
        = rest.map CommandBuilder.data := by
      rw [List.map_map]
      rfl
    obtain ⟨c, hfold, hcdata, hcrest⟩ := foldlM_extend_spec S
      (rest.map CommandBuilder.as_view)
      ⟨f0.cls, f0.instruction, f0.p1, f0.p2, f0.data, f0.le.to_usize, false⟩
      (by dsimp only; rw [hmapdata]; omega)
    have hown : (CommandBuilder.as_view f0).to_owned S
        = Except.ok ⟨f0.cls, f0.instruction, f0.p1, f0.p2, f0.data, f0.le.to_usize,
            false⟩ := by
      unfold CommandView.to_owned
      rw [if_pos ht0]
      rfl
    have hfoldF : foldFragments S ((f0 :: rest).map CommandBuilder.as_view)
        = some c := by
      simp only [List.map_cons, foldFragments, hown]
      exact hfold
    have hcdata' : c.data = b.data := by
      rw [hcdata, hmapdata]
      dsimp only
      rw [← hconcat]
      simp only [List.map_cons, List.flatten_cons]
    have hfields : c.cls = b.cls ∧ c.instruction = b.instruction ∧ c.p1 = b.p1
        ∧ c.p2 = b.p2 ∧ c.le = b.le.to_usize := by
      rcases hcrest with ⟨hnil, hcc⟩ | ⟨vl, hvl, hr1, hr2, hr3, hr4, hr5⟩
      · have hrest_nil : rest = [] := by
          cases rest with
          | nil => rfl
          | cons w ws => simp at hnil
        subst hrest_nil
        have hlf : last = f0 := by
          have hsingle : ([f0] : List CommandBuilder).getLast? = some f0 := rfl
          rw [hsingle] at hlast
          exact (Option.some.inj hlast).symm
        subst hlf
        rw [hcc]
        exact ⟨hl1, hl2, hl3, hl4, by dsimp only; rw [hl5]⟩
      · cases rest with
        | nil => simp at hvl
        | cons w ws =>
          have hlast2 : (w :: ws).getLast? = some last := by
            rw [List.getLast?_cons_cons] at hlast
            exact hlast
          have hvl2 : vl = CommandBuilder.as_view last := by
            rw [List.getLast?_map, hlast2] at hvl
            simp only [Option.map_some'] at hvl
            exact (Option.some.inj hvl).symm
          subst hvl2
          refine ⟨?_, ?_, ?_, ?_, ?_⟩
          · rw [hr1]
            dsimp [CommandBuilder.as_view]
            rw [hl1]
          · rw [hr2]
            dsimp [CommandBuilder.as_view]
            rw [hl2]
          · rw [hr3]
            dsimp [CommandBuilder.as_view]
            rw [hl3]
          · rw [hr4]
            dsimp [CommandBuilder.as_view]
            rw [hl4]
          · rw [hr5]
            dsimp [CommandBuilder.as_view]
            rw [hl5]
    obtain ⟨hf1, hf2, hf3, hf4, hf5⟩ := hfields
    exact ⟨f0 :: rest, c, hfr, hfne, hconcat, hfoldF, hf1, hf2, hf3, hf4, hcdata', hf5⟩

/-- C2 witness: a 10-byte payload at `available_len = 10` chains and folds
back to the original command. -/
theorem C2_witness :
    ∃ frags c, chainFragments
        ⟨⟨0, .Interindustry .First⟩, .Unknown 1, 2, 3, List.replicate 10 9, .Ne 7,
          .Supported⟩ 10
        = some frags
      ∧ frags ≠ []
      ∧ (frags.map CommandBuilder.data).flatten = List.replicate 10 9
      ∧ foldFragments 10 (frags.map CommandBuilder.as_view) = some c
      ∧ c.cls = ⟨0, .Interindustry .First⟩ ∧ c.instruction = .Unknown 1
      ∧ c.p1 = 2 ∧ c.p2 = 3
      ∧ c.data = List.replicate 10 9 ∧ c.le = 7 :=
  C2_chaining_roundtrip _ 10 10 (by decide) (fun h => absurd h (by decide)) (by decide)

set_option maxRecDepth 4000 in
/-- C2 counterexample: at `available_len = 9` (which the claim includes), a
256-byte payload with a nonzero `le` needs 5 bytes of extended length fields,
leaving zero room for payload — the source panics (modelled as `none`), so no
fragment sequence is produced at all. -/
theorem C2_counterexample :
    chainFragments
        ⟨⟨0, .Interindustry .First⟩, .Unknown 1, 2, 3, List.replicate 256 0, .Ne 1,
          .Supported⟩ 9
      = none := by
  decide

end Iso7816
